import Mathlib

/-
Shallow embedding of the preqs requirements generator and checker.

Sources embedded here:
  - preqs/preqs.py     : class Requirements (scanner, classifier, writer, run pipeline)
  - build/lib/preqs/check.py : class RequirementCheck (manifest checker)
  - preqs/enums.py     : class ExCode (exit codes)

External collaborators (argparse, logging, the filesystem, glob, hashlib,
importlib.metadata and packaging.version) are modelled as parameters or,
for packaging.version on dotted numeric versions, as a small executable
model, as noted at each definition.
-/

namespace Preqs

/-- Exit code enumerators, from enums.py (class ExCode). -/
inductive ExCode where
  | GEN_OK
  | ERR_EXIST
  | ERR_FILES
  | ERR_IMPTS
  | ERR_CLEAN
  | ERR_VERSN
  | ERR_WRITE
  | ERR_CKINV
  | ERR_INITL
  | ECK_RCFNF
  | ECK_RCNRQ
deriving DecidableEq, Repr

/-- Numeric values of the exit codes, from enums.py. -/
def ExCode.value : ExCode → Nat
  | .GEN_OK => 0
  | .ERR_EXIST => 10
  | .ERR_FILES => 20
  | .ERR_IMPTS => 30
  | .ERR_CLEAN => 40
  | .ERR_VERSN => 50
  | .ERR_WRITE => 60
  | .ERR_CKINV => 100
  | .ERR_INITL => 255
  | .ECK_RCFNF => 201
  | .ECK_RCNRQ => 202

/-- Generic: does the list start with the given needle (elementwise equality). -/
def startsWithL [BEq α] : List α → List α → Bool
  | [], _ => true
  | _ :: _, [] => false
  | a :: as, b :: bs => a == b && startsWithL as bs

/-- Generic: does the needle occur as a contiguous run anywhere in the
haystack.  This models the Python substring test (needle in haystack),
and at element type List Char it expresses whole-segment containment. -/
def isSubstr [BEq α] (needle : List α) : List α → Bool
  | [] => needle.isEmpty
  | a :: rest => startsWithL needle (a :: rest) || isSubstr needle rest

/-- Split a character list on a separator character, like the Python
str.split with an explicit separator: the empty list yields one empty
chunk, and adjacent separators yield empty chunks. -/
def splitSep (sep : Char) : List Char → List (List Char)
  | [] => [[]]
  | c :: rest =>
    match splitSep sep rest with
    | [] => [[c]]
    | h :: t => if c == sep then [] :: h :: t else (c :: h) :: t

/-- Strip leading and trailing whitespace, modelling the Python str.strip. -/
def stripWs (cs : List Char) : List Char :=
  (((cs.dropWhile Char.isWhitespace).reverse).dropWhile Char.isWhitespace).reverse

/-- Value of a digit string, most significant digit first. -/
def digitsVal (cs : List Char) : Nat :=
  cs.foldl (fun n c => n * 10 + (c.toNat - 48)) 0

/-- Model of the external packaging.version.Version constructor, for
dotted numeric version strings: parse the string into its numeric
release components, or fail on anything not of that shape. -/
def parseVersion (s : String) : Option (List Nat) :=
  let chunks := splitSep '.' s.data
  if chunks.all (fun c => !c.isEmpty && c.all Char.isDigit) then
    some (chunks.map digitsVal)
  else
    none

/-- Pad a release tuple to the given length with zero components. -/
def padTo (n : Nat) (l : List Nat) : List Nat :=
  l ++ List.replicate (n - l.length) 0

/-- Componentwise comparison of two equal-length numeric tuples. -/
def cmpNatList : List Nat → List Nat → Ordering
  | [], [] => Ordering.eq
  | [], _ :: _ => Ordering.lt
  | _ :: _, [] => Ordering.gt
  | a :: as, b :: bs =>
    if a < b then Ordering.lt
    else if b < a then Ordering.gt
    else cmpNatList as bs

/-- Model of the total order of the external packaging.version module on
release tuples: pad both with zeros and compare componentwise, so for
example 1.0 equals 1.0.0 and 0.10 is greater than 0.9. -/
def versionOrd (a b : List Nat) : Ordering :=
  cmpNatList (padTo (max a.length b.length) a) (padTo (max a.length b.length) b)

end Preqs

namespace Preqs.RequirementCheck

/-
Embedding of build/lib/preqs/check.py, class RequirementCheck.
The installed-package metadata service (importlib.metadata.version) is
modelled as a function env : String -> Option String, where none stands
for the PackageNotFoundError condition.  Raised exceptions that the code
does not catch are modelled by Option.none results.
-/

open Preqs

/-- Is the character one of the comparison operator characters of the
regex character class in the method RequirementCheck._read. -/
def isOpChar (c : Char) : Bool :=
  c == '>' || c == '<' || c == '='

/-- Search downwards from the given bound for the largest index k, with
k at least 1, at which the run holds the character equals-sign.  This is
the backtracking of the regex atom that matches one or more operator
characters followed by a literal equals-sign. -/
def lastEqAux (run : List Char) : Nat → Option Nat
  | 0 => none
  | k + 1 => if run.get? (k + 1) == some '=' then some (k + 1) else lastEqAux run k

/-- Largest index of an equals-sign inside the operator run, at index
one or later. -/
def lastEqIdx (run : List Char) : Option Nat :=
  lastEqAux run (run.length - 1)

/-- Length of the greedy match of the regex fragment that matches one or
more operator characters followed by an equals-sign, at the start of the
given character list; none when there is no match there. -/
def opMatchLen (s : List Char) : Option Nat :=
  (lastEqIdx (s.takeWhile isOpChar)).map (fun k => k + 1)

/-- Greedy search of the regex in RequirementCheck._read: the first
capture group is maximised, so the split position is the largest index i
at which the operator fragment matches.  Tries i = b, b - 1, ..., 0 and
returns the first success together with the operator match length. -/
def bestAux (s : List Char) : Nat → Option (Nat × Nat)
  | 0 =>
    match opMatchLen (s.drop 0) with
    | some L => some (0, L)
    | none => none
  | b + 1 =>
    match opMatchLen (s.drop (b + 1)) with
    | some L => some (b + 1, L)
    | none => bestAux s b

/-- The match of the full-line regex of RequirementCheck._read against a
line: the split position and operator length chosen by the greedy engine. -/
def bestOpSplit (s : List Char) : Option (Nat × Nat) :=
  bestAux s s.length

/-- One line split by the regex of RequirementCheck._read, with the
empty strings removed, exactly as the Python code filters the tuple of
re.split pieces: no match yields the whole line as a single piece. -/
def splitRequirement (l : List Char) : List (List Char) :=
  match bestOpSplit l with
  | none => [l]
  | some (i, L) => List.filter (fun t => !t.isEmpty) [l.take i, l.drop (i + L)]

/-- The method RequirementCheck._read: strip every line, keep the lines
that are non-empty and do not start with the comment character, and
split each kept line with the regex.  The file handle iteration is
modelled by the list of the lines of the file. -/
def _read (lines : List String) : List (List String) :=
  let stripped := lines.map (fun l => stripWs l.data)
  let kept := stripped.filter (fun l => !l.isEmpty && !(startsWithL (("#").data) l))
  kept.map (fun l => (splitRequirement l).map String.mk)

/-- One iteration of the loop in RequirementCheck._collect: the entry
must unpack into exactly a package name and a required version, the
installed version is looked up in the environment, and the status is
computed with the version comparator.  none models an uncaught raised
error: the tuple unpacking failure on an entry that is not a pair, or an
invalid version string reaching the Version constructor. -/
def collectOne (env : String → Option String) : List String → Option (String × String × String × String)
  | [pkg, rvers] =>
    match env pkg with
    | none => some (pkg, rvers, "n/a", "Not installed")
    | some ivers =>
      match parseVersion ivers, parseVersion rvers with
      | some iv, some rv =>
        some (pkg, rvers, ivers,
          match versionOrd iv rv with
          | Ordering.eq => "Same"
          | Ordering.lt => "Older"
          | Ordering.gt => "Newer")
      | _, _ => none
  | _ => none

/-- The method RequirementCheck._collect: run the loop body over every
parsed entry, aborting the whole collection when any iteration raises. -/
def _collect (env : String → Option String) : List (List String) → Option (List (String × String × String × String))
  | [] => some []
  | entry :: rest =>
    match collectOne env entry with
    | none => none
    | some r =>
      match _collect env rest with
      | none => none
      | some rs => some (r :: rs)

/-- Failure modes of RequirementCheck._path_exists. -/
inductive CheckFailure where
  | fileNotFound
  | notRequirementsFile
deriving DecidableEq, Repr

/-- Basename of a path: the part after the final path separator,
modelling os.path.basename on a separator-normalised path. -/
def basenameCL (p : List Char) : List Char :=
  ((p.reverse.takeWhile (fun c => c ≠ '/'))).reverse

/-- Model of os.path.join of a path with the fixed final component
requirements.txt: a separator is inserted unless the path is empty or
already ends with a separator. -/
def joinReq (p : List Char) : List Char :=
  if p.isEmpty then ("requirements.txt").data
  else if p.getLast? == some '/' then p ++ ("requirements.txt").data
  else p ++ '/' :: ("requirements.txt").data

/-- The path after the first step of RequirementCheck._path_exists: the
fixed file name is appended when the given path is a directory. -/
def resolvedPath (isDir : String → Bool) (path : String) : String :=
  if isDir path then String.mk (joinReq path.data) else path

/-- The method RequirementCheck._path_exists: when the path is a
directory the fixed file name is appended, then existence and the
basename are validated, raising with the matching exit code on failure.
The filesystem predicates are external collaborators passed in as
functions. -/
def _path_exists (isDir : String → Bool) (fsExists : String → Bool) (path : String) :
    Except (CheckFailure × ExCode) String :=
  let path1 := resolvedPath isDir path
  if !fsExists path1 then
    Except.error (CheckFailure.fileNotFound, ExCode.ECK_RCFNF)
  else if String.mk (basenameCL path1.data) ≠ "requirements.txt" then
    Except.error (CheckFailure.notRequirementsFile, ExCode.ECK_RCNRQ)
  else
    Except.ok path1

end Preqs.RequirementCheck

namespace Preqs.Requirements

/-
Embedding of preqs/preqs.py, class Requirements.  The glob results, the
per-file import extraction (class CodeParser over the ast module), the
standard library name enumeration, the installed version lookup and the
md5 digest are external collaborators, passed in as values or functions.
-/

open Preqs

/-- The method Requirements._file_not_exists: the pipeline may proceed
when the output file is absent, or the replace flag is set, or the
print flag is set. -/
def _file_not_exists (ofileExists replaceFlag printFlag : Bool) : Bool :=
  !ofileExists || replaceFlag || printFlag

/-- The method Requirements._find_files: of the glob results, keep the
files for which no ignored directory string occurs inside the file path
(the Python expression dir_ not in file_ is a substring test), then
deduplicate, modelling the Python set the results are added to. -/
def _find_files (globFiles : List String) (ignoreDirs : List String) : List String :=
  (globFiles.filter (fun f => ignoreDirs.all (fun d => !(isSubstr d.data f.data)))).dedup

/-- First dotted segment of an import name, modelling the Python
expression i.partition(".")[0] used in Requirements._collect_imports. -/
def firstSegment (s : String) : String :=
  String.mk (s.data.takeWhile (fun c => c ≠ '.'))

/-- The method Requirements._collect_imports: union the imports
extracted from every file, reduce each name to its first dotted
segment, and fail with the matching flag when nothing was found. -/
def _collect_imports (files : List String) (fileImports : String → Finset String) :
    Finset String × Bool :=
  let imps0 : Finset String := files.foldl (fun acc f => acc ∪ fileImports f) ∅
  let imps := imps0.image firstSegment
  if imps = (∅ : Finset String) then (imps, false) else (imps, true)

/-- Index of the final dot of a path component, if any. -/
def lastDotIdx (s : List Char) : Option Nat :=
  (List.range s.length).foldl
    (fun acc k => if s.get? k == some '.' then some k else acc) none

/-- Root part of a path component, modelling os.path.splitext on a
single component: drop from the final dot, unless every character up to
that dot is a dot. -/
def splitextRoot (s : List Char) : List Char :=
  match lastDotIdx s with
  | none => s
  | some i => if (s.take i).all (fun c => c == '.') then s else s.take i

/-- The method Requirements._define_locals: every path component of
every scanned file, also with its extension stripped, minus the empty
and the dot placeholders.  Paths are assumed already normalised, so
os.path.normpath is modelled as the identity, and os.sep is the slash. -/
def _define_locals (files : List String) : Finset String :=
  let parts0 : Finset String :=
    files.foldl (fun acc f => acc ∪ ((splitSep '/' f.data).map String.mk).toFinset) ∅
  let parts1 := parts0 ∪ parts0.image (fun p => String.mk (splitextRoot p.data))
  parts1 \ ({"", ".", ".."} : Finset String)

/-- The method Requirements._clean_imports: subtract the standard
library names and the local names from the import set, then run the
verification of the code, which tests the triple intersection of the
new import set with the locals and the builtins, failing when it is
non-empty. -/
def _clean_imports (imps stdlib locs : Finset String) : Finset String × Bool :=
  let imps2 := (imps \ stdlib) \ (imps ∩ locs)
  if (imps2 ∩ locs ∩ stdlib).Nonempty then (imps2, false) else (imps2, true)

/-- The method Requirements._get_installed_version: pair every import
with its installed version, or with the sentinel string when the lookup
raises the package-not-found condition. -/
def _get_installed_version (imps : Finset String) (versionOf : String → Option String) :
    Finset (String × String) :=
  imps.image (fun p =>
    (p, match versionOf p with
        | some v => v
        | none => "Unknown or not installed"))

/-- Lexicographic strict order on character lists by code point,
modelling the Python string comparison. -/
def lexLtCL : List Char → List Char → Bool
  | [], [] => false
  | [], _ :: _ => true
  | _ :: _, [] => false
  | a :: as, b :: bs =>
    if a < b then true
    else if b < a then false
    else lexLtCL as bs

/-- Strict comparison of strings by code points. -/
def strLt (a b : String) : Bool :=
  lexLtCL a.data b.data

/-- Order used by the Python sorted builtin on pairs of strings:
lexicographic on the first component, ties broken by the second. -/
def reqLe (a b : String × String) : Prop :=
  strLt a.1 b.1 = true ∨ (a.1 = b.1 ∧ (strLt a.2 b.2 = true ∨ a.2 = b.2))

instance : DecidableRel reqLe := fun a b =>
  inferInstanceAs (Decidable (strLt a.1 b.1 = true ∨ (a.1 = b.1 ∧ (strLt a.2 b.2 = true ∨ a.2 = b.2))))

/-- Trichotomy of the lexicographic order on character lists. -/
def lexLtTrichot : ∀ x y : List Char, lexLtCL x y = true ∨ x = y ∨ lexLtCL y x = true := by
  intro x
  induction x with
  | nil =>
    intro y
    cases y with
    | nil => exact Or.inr (Or.inl rfl)
    | cons b bs => exact Or.inl rfl
  | cons a as ih =>
    intro y
    cases y with
    | nil => exact Or.inr (Or.inr rfl)
    | cons b bs =>
      rcases lt_trichotomy a b with h | h | h
      · exact Or.inl (by simp [lexLtCL, h])
      · subst h
        rcases ih bs with h2 | h2 | h2
        · exact Or.inl (by simp [lexLtCL, lt_irrefl, h2])
        · exact Or.inr (Or.inl (by rw [h2]))
        · exact Or.inr (Or.inr (by simp [lexLtCL, lt_irrefl, h2]))
      · exact Or.inr (Or.inr (by simp [lexLtCL, h, not_lt_of_lt h]))

/-- Transitivity of the lexicographic order on character lists. -/
def lexLtTrans : ∀ x y z : List Char,
    lexLtCL x y = true → lexLtCL y z = true → lexLtCL x z = true := by
  intro x
  induction x with
  | nil =>
    intro y z hxy hyz
    cases y with
    | nil => exact absurd hxy (by simp [lexLtCL])
    | cons b bs =>
      cases z with
      | nil => exact absurd hyz (by simp [lexLtCL])
      | cons c cs => simp [lexLtCL]
  | cons a as ih =>
    intro y z hxy hyz
    cases y with
    | nil => exact absurd hxy (by simp [lexLtCL])
    | cons b bs =>
      cases z with
      | nil => exact absurd hyz (by simp [lexLtCL])
      | cons c cs =>
        simp only [lexLtCL] at hxy hyz ⊢
        by_cases hab : a < b
        · by_cases hbc : b < c
          · simp [lt_trans hab hbc]
          · simp only [hbc, if_false] at hyz
            by_cases hcb : c < b
            · simp [hcb] at hyz
            · have hbc2 : b = c := le_antisymm (le_of_not_lt hcb) (le_of_not_lt hbc)
              simp [hbc2 ▸ hab]
        · simp only [hab, if_false] at hxy
          by_cases hba : b < a
          · simp [hba] at hxy
          · rw [if_neg hba] at hxy
            have hab2 : a = b := le_antisymm (le_of_not_lt hba) (le_of_not_lt hab)
            subst hab2
            by_cases hac : a < c
            · simp [hac]
            · simp only [hac, if_false] at hyz ⊢
              by_cases hca : c < a
              · simp [hca] at hyz
              · simp only [hca, if_false] at hyz ⊢
                exact ih bs cs hxy hyz

/-- Irreflexivity of the lexicographic order on character lists. -/
def lexLtIrrefl : ∀ x : List Char, lexLtCL x x = false := by
  intro x
  induction x with
  | nil => rfl
  | cons a as ih => simp [lexLtCL, lt_irrefl, ih]

instance : IsTotal (String × String) reqLe := by
  constructor
  intro a b
  rcases lexLtTrichot a.1.data b.1.data with h | h | h
  · exact Or.inl (Or.inl h)
  · have e1 : a.1 = b.1 := String.ext h
    rcases lexLtTrichot a.2.data b.2.data with h2 | h2 | h2
    · exact Or.inl (Or.inr ⟨e1, Or.inl h2⟩)
    · exact Or.inl (Or.inr ⟨e1, Or.inr (String.ext h2)⟩)
    · exact Or.inr (Or.inr ⟨e1.symm, Or.inl h2⟩)
  · exact Or.inr (Or.inl h)

instance : IsAntisymm (String × String) reqLe := by
  constructor
  intro a b hab hba
  have asymm : ∀ x y : List Char, lexLtCL x y = true → lexLtCL y x = true → False := by
    intro x y h1 h2
    have := lexLtTrans x y x h1 h2
    rw [lexLtIrrefl x] at this
    exact Bool.noConfusion this
  rcases hab with h1 | ⟨e1, l1⟩
  · rcases hba with h2 | ⟨e2, _⟩
    · exact (asymm _ _ h1 h2).elim
    · rw [e2, strLt, lexLtIrrefl] at h1
      exact Bool.noConfusion h1
  · rcases hba with h2 | ⟨_, l2⟩
    · rw [e1, strLt, lexLtIrrefl] at h2
      exact Bool.noConfusion h2
    · rcases l1 with lt1 | eq1
      · rcases l2 with lt2 | eq2
        · exact (asymm _ _ lt1 lt2).elim
        · rw [eq2, strLt, lexLtIrrefl] at lt1
          exact Bool.noConfusion lt1
      · exact Prod.ext e1 eq1

instance : IsTrans (String × String) reqLe := by
  constructor
  intro a b c hab hbc
  rcases hab with h1 | ⟨e1, l1⟩
  · rcases hbc with h2 | ⟨e2, _⟩
    · exact Or.inl (lexLtTrans _ _ _ h1 h2)
    · exact Or.inl (by rw [strLt] at h1 ⊢; rw [← e2]; exact h1)
  · rcases hbc with h2 | ⟨e2, l2⟩
    · exact Or.inl (by rw [strLt] at h2 ⊢; rw [e1]; exact h2)
    · refine Or.inr ⟨e1.trans e2, ?_⟩
      rcases l1 with lt1 | eq1
      · rcases l2 with lt2 | eq2
        · exact Or.inl (lexLtTrans _ _ _ lt1 lt2)
        · exact Or.inl (by rw [strLt] at lt1 ⊢; rw [← eq2]; exact lt1)
      · rcases l2 with lt2 | eq2
        · exact Or.inl (by rw [strLt] at lt2 ⊢; rw [eq1]; exact lt2)
        · exact Or.inr (eq1.trans eq2)

/-- Model of the Python sorted builtin on a list of name and version
pairs: a stable sort under the pair order. -/
def sortPairs (l : List (String × String)) : List (String × String) :=
  List.insertionSort reqLe l

/-- Does the version string contain the marker of the not-installed
sentinel, modelling the Python substring test used in the generator
expression of Requirements._write. -/
def hasUnknown (v : String) : Bool :=
  isSubstr (("Unknown").data) v.data

/-- Rendering of one requirement line. -/
def renderReq (pv : String × String) : String :=
  pv.1 ++ "==" ++ pv.2

/-- Model of the Python newline join of a list of strings. -/
def joinNL : List String → String
  | [] => ""
  | [x] => x
  | x :: y :: t => x ++ "\n" ++ joinNL (y :: t)

/-- Content built by the method Requirements._write: requirements
sorted, the pairs whose version contains the sentinel marker dropped,
each rendered as a requirement line, joined by newlines, followed by a
blank line and the generator comment line.  The generator comment,
which carries the tool version tag and the timestamp, is passed in. -/
def _write_content (reqs : List (String × String)) (genby : String) : String :=
  joinNL (((sortPairs reqs).filter (fun pv => !(hasUnknown pv.2))).map renderReq)
    ++ "\n\n" ++ genby ++ "\n"

/-- Modelled from the spec, section 4.5, with the amended exclusion
rule: exclude the pairs whose version contains the sentinel marker,
sort the remaining pairs, render each as a requirement line, and append
the trailing generator comment line. -/
def _write_content_spec (reqs : List (String × String)) (genby : String) : String :=
  joinNL ((sortPairs (reqs.filter (fun pv => !(hasUnknown pv.2)))).map renderReq)
    ++ "\n\n" ++ genby ++ "\n"

/-- The method Requirements._compare: the md5 digest of the content
written is compared with the md5 digest of the bytes read back from the
file.  The digest function is an external collaborator. -/
def _compare (hash : String → String) (content fileText : String) : Bool :=
  hash content == hash fileText

/-- The method Requirements._write, returning the exit code outcome,
the success flag, and whether the output file was written.  In print
mode nothing is written; otherwise the content is written, read back
(the readBack argument is the resulting file text, which a failing disk
may have corrupted) and verified by the digest comparison. -/
def _write (printFlag : Bool) (reqs : List (String × String)) (genby : String)
    (hash : String → String) (readBack : String) : ExCode × Bool × Bool :=
  if printFlag then (ExCode.GEN_OK, true, false)
  else if _compare hash (_write_content reqs genby) readBack then (ExCode.GEN_OK, true, true)
  else (ExCode.ERR_WRITE, false, true)

/-- Inputs of one program run: the flags, the glob results, the
external collaborators, and the file text found when reading the output
file back after the write. -/
structure RunEnv where
  ofileExists : Bool
  replaceFlag : Bool
  printFlag : Bool
  globFiles : List String
  ignoreDirs : List String
  fileImports : String → Finset String
  stdlib : Finset String
  versionOf : String → Option String
  hash : String → String
  readBack : String
  genby : String

/-- Observable outcome of one program run: the exit code, whether the
scanning stages were entered, and whether the output file was written. -/
structure RunOut where
  excode : ExCode
  scanStarted : Bool
  fileWritten : Bool
deriving DecidableEq, Repr

/-- The method Requirements.run: the running-boolean pipeline.  Each
stage runs only when the previous stage succeeded, and a failing stage
falls through to the end with its exit code. -/
def run (env : RunEnv) : RunOut :=
  if _file_not_exists env.ofileExists env.replaceFlag env.printFlag then
    let files := _find_files env.globFiles env.ignoreDirs
    if files.isEmpty then ⟨ExCode.ERR_FILES, true, false⟩
    else
      match _collect_imports files env.fileImports with
      | (_, false) => ⟨ExCode.ERR_IMPTS, true, false⟩
      | (imps, true) =>
        match _clean_imports imps env.stdlib (_define_locals files) with
        | (_, false) => ⟨ExCode.ERR_CLEAN, true, false⟩
        | (imps2, true) =>
          let reqs := _get_installed_version imps2 env.versionOf
          match _write env.printFlag (Finset.sort reqLe reqs) env.genby env.hash env.readBack with
          | (code, _, wrote) => ⟨code, true, wrote⟩
  else
    ⟨ExCode.ERR_EXIST, false, false⟩

/-- Modelled from the spec, section 4.2: containment of an ignored
directory as whole path segments, the ignore entry split on the path
separator occurring as a consecutive run of the path segments of the
file. -/
def segmentMatch (d f : String) : Bool :=
  isSubstr (splitSep '/' d.data) (splitSep '/' f.data)

/-- A concrete run environment used to exercise the pipeline gate. -/
def sampleEnv : RunEnv where
  ofileExists := true
  replaceFlag := false
  printFlag := false
  globFiles := []
  ignoreDirs := []
  fileImports := fun _ => ∅
  stdlib := ∅
  versionOf := fun _ => none
  hash := fun s => s
  readBack := ""
  genby := ""

end Preqs.Requirements

namespace Preqs

theorem startsWithL_iff (n h : List Char) : startsWithL n h = true ↔ ∃ t, h = n ++ t := by
  induction n generalizing h with
  | nil => simp [startsWithL]
  | cons a as ih =>
    cases h with
    | nil => simp [startsWithL]
    | cons b bs =>
      simp only [startsWithL, Bool.and_eq_true, beq_iff_eq, ih]
      constructor
      · rintro ⟨e, t, ht⟩
        exact ⟨t, by rw [e, ht]; rfl⟩
      · rintro ⟨t, ht⟩
        rw [List.cons_append] at ht
        injection ht with h1 h2
        exact ⟨h1.symm, t, h2⟩

theorem isSubstr_iff (n h : List Char) : isSubstr n h = true ↔ ∃ p q, h = p ++ n ++ q := by
  induction h with
  | nil =>
    simp only [isSubstr, List.isEmpty_iff]
    constructor
    · intro e
      exact ⟨[], [], by simp [e]⟩
    · rintro ⟨p, q, e⟩
      exact (List.append_eq_nil.mp (List.append_eq_nil.mp e.symm).1).2
  | cons a rest ih =>
    simp only [isSubstr, Bool.or_eq_true, startsWithL_iff, ih]
    constructor
    · rintro (⟨t, ht⟩ | ⟨p, q, e⟩)
      · exact ⟨[], t, by simp [ht]⟩
      · exact ⟨a :: p, q, by simp [e]⟩
    · rintro ⟨p, q, e⟩
      cases p with
      | nil =>
        exact Or.inl ⟨q, by simpa using e⟩
      | cons x p2 =>
        rw [List.cons_append, List.cons_append] at e
        injection e with _ h2
        exact Or.inr ⟨p2, q, h2⟩

end Preqs

namespace Preqs.Requirements

theorem mem_find_files (globFiles ignoreDirs : List String) (f : String) :
    f ∈ _find_files globFiles ignoreDirs ↔
      f ∈ globFiles ∧ ∀ d ∈ ignoreDirs, isSubstr d.data f.data = false := by
  unfold _find_files
  rw [List.mem_dedup, List.mem_filter]
  simp [List.all_eq_true]

/-- C3: the scanner excludes a discovered file exactly when some ignored
directory string occurs as a substring of the file path (the Python
membership test on strings), and substring occurrence means occurrence
as a contiguous character run.  This is the amended form of the claim:
the exclusion is substring containment, not whole path-segment
containment. -/
theorem find_files_excludes_by_substring :
    ∀ (globFiles ignoreDirs : List String) (f : String),
      (f ∈ _find_files globFiles ignoreDirs ↔
        f ∈ globFiles ∧ ∀ d ∈ ignoreDirs, isSubstr d.data f.data = false)
      ∧ (∀ n h : List Char, isSubstr n h = true ↔ ∃ p q, h = p ++ n ++ q) := by
  intro globFiles ignoreDirs f
  exact ⟨mem_find_files globFiles ignoreDirs f, isSubstr_iff⟩

/-- C3 counterexample: with the ignored directory /r/test, the file
/r/testing/app.py is excluded by the scanner although the ignored
directory does not occur in it as whole path segments, refuting the
claimed segment-match exclusion rule. -/
theorem find_files_segment_claim_cex :
    _find_files [("/r/testing/app.py" : String)] [("/r/test" : String)] = []
    ∧ segmentMatch ("/r/test") ("/r/testing/app.py") = false := by
  constructor
  · decide
  · decide

end Preqs.Requirements

namespace Preqs.Requirements

/-- C5: the import set produced by the cleaning stage never intersects
the standard library name set or the local name set, and the internal
verification of the stage always passes, so the stage never reports the
cleaning error for a reachable state. -/
theorem clean_imports_postcondition :
    ∀ (imps stdlib locs : Finset String),
      (_clean_imports imps stdlib locs).1 ∩ stdlib = ∅
      ∧ (_clean_imports imps stdlib locs).1 ∩ locs = ∅
      ∧ (_clean_imports imps stdlib locs).2 = true := by
  intro imps stdlib locs
  have h2 : ((imps \ stdlib) \ (imps ∩ locs)) ∩ locs = ∅ := by
    ext x
    simp only [Finset.mem_inter, Finset.mem_sdiff, Finset.not_mem_empty, iff_false]
    tauto
  have h1 : ((imps \ stdlib) \ (imps ∩ locs)) ∩ stdlib = ∅ := by
    ext x
    simp only [Finset.mem_inter, Finset.mem_sdiff, Finset.not_mem_empty, iff_false]
    tauto
  have hempty : ¬ ((((imps \ stdlib) \ (imps ∩ locs)) ∩ locs ∩ stdlib).Nonempty) := by
    rw [h2]
    simp
  have hval : _clean_imports imps stdlib locs = ((imps \ stdlib) \ (imps ∩ locs), true) := by
    simp only [_clean_imports]
    rw [if_neg hempty]
  rw [hval]
  exact ⟨h1, h2, rfl⟩

end Preqs.Requirements

namespace Preqs.RequirementCheck

/-- C1 counterexample: for the manifest line six==1.17.0 with installed
version 0.17.0 the checker reports the status Older, not the status
Newer stated by the claim. -/
theorem collect_scenario3_claim_cex :
    _collect (fun p => if p == ("six" : String) then some ("0.17.0") else none)
        [[("six" : String), ("1.17.0" : String)]]
      = some [(("six" : String), ("1.17.0" : String), ("0.17.0" : String), ("Older" : String))]
    ∧ ("Older" : String) ≠ ("Newer" : String) := by
  exact ⟨by decide, by decide⟩

/-- C1 (amended): for the manifest line six==1.17.0, installed version
1.17.0 gives the status Same, installed version 0.17.0 gives the status
Older, and an absent package gives the status Not installed with the
installed version shown as the string n/a. -/
theorem collect_scenario3 :
    _collect (fun p => if p == ("six" : String) then some ("1.17.0") else none)
        [[("six" : String), ("1.17.0" : String)]]
      = some [(("six" : String), ("1.17.0" : String), ("1.17.0" : String), ("Same" : String))]
    ∧ _collect (fun p => if p == ("six" : String) then some ("0.17.0") else none)
        [[("six" : String), ("1.17.0" : String)]]
      = some [(("six" : String), ("1.17.0" : String), ("0.17.0" : String), ("Older" : String))]
    ∧ _collect (fun _ => none) [[("six" : String), ("1.17.0" : String)]]
      = some [(("six" : String), ("1.17.0" : String), ("n/a" : String), ("Not installed" : String))] := by
  exact ⟨by decide, by decide, by decide⟩

/-- C2: for every parsed pair, the checker resolves the installed
version and assigns the status by the semantic version order: the
status is Same exactly when the comparison is eq, Older exactly when it
is lt, Newer exactly when it is gt, and a failed lookup gives Not
installed with the installed version shown as n/a. -/
theorem collect_status_by_version_order :
    ∀ (env : String → Option String) (pkg rvers : String),
      (env pkg = none →
        collectOne env [pkg, rvers] = some (pkg, rvers, ("n/a" : String), ("Not installed" : String))
        ∧ _collect env [[pkg, rvers]] = some [(pkg, rvers, ("n/a" : String), ("Not installed" : String))])
      ∧ (∀ (ivers : String) (iv rv : List Nat),
          env pkg = some ivers → parseVersion ivers = some iv → parseVersion rvers = some rv →
          ∃ st, collectOne env [pkg, rvers] = some (pkg, rvers, ivers, st)
            ∧ _collect env [[pkg, rvers]] = some [(pkg, rvers, ivers, st)]
            ∧ (st = ("Same" : String) ↔ versionOrd iv rv = Ordering.eq)
            ∧ (st = ("Older" : String) ↔ versionOrd iv rv = Ordering.lt)
            ∧ (st = ("Newer" : String) ↔ versionOrd iv rv = Ordering.gt)
            ∧ st ≠ ("Not installed" : String)) := by
  intro env pkg rvers
  constructor
  · intro h
    constructor
    · simp [collectOne, h]
    · simp [_collect, collectOne, h]
  · intro ivers iv rv he hi hr
    have hc : collectOne env [pkg, rvers] = some (pkg, rvers, ivers,
        match versionOrd iv rv with
        | Ordering.eq => "Same"
        | Ordering.lt => "Older"
        | Ordering.gt => "Newer") := by
      simp [collectOne, he, hi, hr]
    rcases ho : versionOrd iv rv with _ | _ | _
    · rw [ho] at hc
      refine ⟨("Older" : String), hc, by simp [_collect, hc], ?_, ?_, ?_, by decide⟩
      · decide
      · decide
      · decide
    · rw [ho] at hc
      refine ⟨("Same" : String), hc, by simp [_collect, hc], ?_, ?_, ?_, by decide⟩
      · decide
      · decide
      · decide
    · rw [ho] at hc
      refine ⟨("Newer" : String), hc, by simp [_collect, hc], ?_, ?_, ?_, by decide⟩
      · decide
      · decide
      · decide

/-- C2 witness: a concrete environment where the installed version
0.10.0 compares greater than the required 0.9.0 under the semantic
order, although it is smaller in the lexicographic string order. -/
theorem collect_status_by_version_order_witness :
    ∃ st, collectOne (fun p => if p == ("six" : String) then some ("0.10.0") else none)
        [("six" : String), ("0.9.0" : String)]
        = some (("six" : String), ("0.9.0" : String), ("0.10.0" : String), st)
      ∧ _collect (fun p => if p == ("six" : String) then some ("0.10.0") else none)
          [[("six" : String), ("0.9.0" : String)]]
          = some [(("six" : String), ("0.9.0" : String), ("0.10.0" : String), st)]
      ∧ (st = ("Same" : String) ↔ versionOrd [0, 10, 0] [0, 9, 0] = Ordering.eq)
      ∧ (st = ("Older" : String) ↔ versionOrd [0, 10, 0] [0, 9, 0] = Ordering.lt)
      ∧ (st = ("Newer" : String) ↔ versionOrd [0, 10, 0] [0, 9, 0] = Ordering.gt)
      ∧ st ≠ ("Not installed" : String) :=
  (collect_status_by_version_order
      (fun p => if p == ("six" : String) then some ("0.10.0") else none)
      ("six") ("0.9.0")).2
    ("0.10.0") [0, 10, 0] [0, 9, 0] (by decide) (by decide) (by decide)

/-- C10: a manifest line without an operator sequence, and a line whose
version text after the operator is empty, each parse to a one-element
tuple, and the collect step on such an entry aborts with an uncaught
unpacking failure (modelled by none) instead of producing a result. -/
theorem collect_unpack_failure :
    _read [("six" : String)] = [[("six" : String)]]
    ∧ _read [("name==" : String)] = [[("name" : String)]]
    ∧ _collect (fun _ => some ("1.0")) [[("six" : String)]] = none
    ∧ _collect (fun _ => some ("1.0")) [[("name" : String)]] = none := by
  exact ⟨by decide, by decide, by decide, by decide⟩

/-- C9: the checker resolves a directory path by appending the fixed
file name, fails with the file-not-found exit code when the resolved
path does not exist, fails with the not-a-requirements-file exit code
when it exists with a different basename, and accepts it otherwise. -/
theorem path_exists_validation :
    ∀ (isDir fsExists : String → Bool) (path : String),
      (fsExists (resolvedPath isDir path) = false →
        _path_exists isDir fsExists path
          = Except.error (CheckFailure.fileNotFound, ExCode.ECK_RCFNF))
      ∧ (fsExists (resolvedPath isDir path) = true →
          String.mk (basenameCL (resolvedPath isDir path).data) ≠ "requirements.txt" →
          _path_exists isDir fsExists path
            = Except.error (CheckFailure.notRequirementsFile, ExCode.ECK_RCNRQ))
      ∧ (fsExists (resolvedPath isDir path) = true →
          String.mk (basenameCL (resolvedPath isDir path).data) = "requirements.txt" →
          _path_exists isDir fsExists path = Except.ok (resolvedPath isDir path)) := by
  intro isDir fsExists path
  refine ⟨?_, ?_, ?_⟩
  · intro h
    simp [_path_exists, h]
  · intro h hb
    simp [_path_exists, h, hb]
  · intro h hb
    simp [_path_exists, h, hb]

/-- C9 witness: a directory path is resolved to the contained manifest
file and accepted. -/
theorem path_exists_validation_witness :
    _path_exists (fun s => s == ("proj" : String))
        (fun s => s == ("proj/requirements.txt" : String)) ("proj")
      = Except.ok (resolvedPath (fun s => s == ("proj" : String)) ("proj")) :=
  (path_exists_validation (fun s => s == ("proj" : String))
      (fun s => s == ("proj/requirements.txt" : String)) ("proj")).2.2
    (by decide) (by decide)

end Preqs.RequirementCheck

namespace Preqs.RequirementCheck

theorem lastEqAux_some (run : List Char) :
    ∀ b k, lastEqAux run b = some k → 1 ≤ k ∧ run.get? k = some '=' := by
  intro b
  induction b with
  | zero =>
    intro k h
    simp [lastEqAux] at h
  | succ j ih =>
    intro k h
    cases hb : (run.get? (j + 1) == some '=') with
    | true =>
      simp only [lastEqAux, hb, if_true] at h
      injection h with hk
      subst hk
      exact ⟨Nat.succ_le_succ (Nat.zero_le j), eq_of_beq hb⟩
    | false =>
      simp only [lastEqAux, hb, if_false] at h
      exact ih k h

theorem takeWhile_length_le (p : Char → Bool) :
    ∀ l : List Char, (l.takeWhile p).length ≤ l.length := by
  intro l
  induction l with
  | nil => simp
  | cons a t ih =>
    cases hp : p a with
    | true =>
      simp only [List.takeWhile_cons, hp, if_true, List.length_cons]
      exact Nat.succ_le_succ ih
    | false =>
      simp [List.takeWhile_cons, hp]

theorem take_takeWhile (p : Char → Bool) :
    ∀ (l : List Char) (n : Nat), n ≤ (l.takeWhile p).length → l.take n = (l.takeWhile p).take n := by
  intro l
  induction l with
  | nil => simp
  | cons a t ih =>
    intro n hn
    cases hp : p a with
    | true =>
      rw [List.takeWhile_cons, if_pos (by rw [hp])] at hn ⊢
      cases n with
      | zero => simp
      | succ m =>
        simp only [List.take_succ_cons]
        rw [ih m (Nat.le_of_succ_le_succ (by simpa using hn))]
    | false =>
      rw [List.takeWhile_cons, if_neg (by rw [hp]; exact Bool.false_ne_true)] at hn
      have : n = 0 := Nat.le_zero.mp (by simpa using hn)
      simp [this]

theorem takeWhile_all (p : Char → Bool) :
    ∀ l : List Char, ((l.takeWhile p).all p) = true := by
  intro l
  induction l with
  | nil => simp
  | cons a t ih =>
    cases hp : p a with
    | true => simp [List.takeWhile_cons, hp, ih]
    | false => simp [List.takeWhile_cons, hp]

theorem all_take (p : Char → Bool) :
    ∀ (l : List Char) (n : Nat), l.all p = true → ((l.take n).all p) = true := by
  intro l n h
  rw [List.all_eq_true] at h ⊢
  intro x hx
  exact h x (List.mem_of_mem_take hx)

theorem getLast?_take_succ :
    ∀ (l : List Char) (k : Nat), k < l.length → (l.take (k + 1)).getLast? = l.get? k := by
  intro l
  induction l with
  | nil => simp
  | cons a t ih =>
    intro k hk
    cases k with
    | zero => cases t <;> simp
    | succ m =>
      have hm : m < t.length := Nat.lt_of_succ_lt_succ hk
      cases t with
      | nil => exact absurd hm (Nat.not_lt_zero m)
      | cons b t2 =>
        rw [List.take_succ_cons, List.get?_cons_succ, ← ih m hm]
        rw [List.take_succ_cons]
        simp [List.getLast?]

theorem opMatchLen_sound (s : List Char) (L : Nat) (h : opMatchLen s = some L) :
    2 ≤ L ∧ L ≤ s.length ∧ ((s.take L).all isOpChar) = true
      ∧ (s.take L).getLast? = some '=' := by
  unfold opMatchLen lastEqIdx at h
  cases hk : lastEqAux (s.takeWhile isOpChar) ((s.takeWhile isOpChar).length - 1) with
  | none =>
    rw [hk] at h
    exact absurd h (by simp)
  | some k =>
    rw [hk] at h
    simp only [Option.map_some'] at h
    injection h with hL
    subst hL
    obtain ⟨hk1, hkeq⟩ := lastEqAux_some _ _ _ hk
    obtain ⟨hklt, -⟩ := List.get?_eq_some.mp hkeq
    have hkle : k + 1 ≤ (s.takeWhile isOpChar).length := Nat.succ_le_of_lt hklt
    have htk : s.take (k + 1) = (s.takeWhile isOpChar).take (k + 1) :=
      take_takeWhile isOpChar s (k + 1) hkle
    refine ⟨Nat.succ_le_succ hk1, ?_, ?_, ?_⟩
    · exact le_trans hkle (takeWhile_length_le isOpChar s)
    · rw [htk]
      exact all_take isOpChar _ _ (takeWhile_all isOpChar s)
    · rw [htk, getLast?_take_succ _ k hklt]
      exact hkeq

theorem bestAux_some (s : List Char) :
    ∀ b i L, bestAux s b = some (i, L) →
      i ≤ b ∧ opMatchLen (s.drop i) = some L
        ∧ ∀ j, i < j → j ≤ b → opMatchLen (s.drop j) = none := by
  intro b
  induction b with
  | zero =>
    intro i L h
    simp only [bestAux, List.drop_zero] at h
    cases hm : opMatchLen s with
    | none =>
      rw [hm] at h
      exact absurd h (by simp)
    | some L2 =>
      rw [hm] at h
      injection h with hp
      injection hp with h1 h2
      subst h1
      subst h2
      refine ⟨Nat.le_refl 0, ?_, ?_⟩
      · rw [List.drop_zero]
        exact hm
      · intro j hj1 hj2
        exact absurd (Nat.lt_of_lt_of_le hj1 hj2) (Nat.lt_irrefl 0)
  | succ c ih =>
    intro i L h
    cases hm : opMatchLen (s.drop (c + 1)) with
    | some L2 =>
      simp only [bestAux, hm] at h
      injection h with hp
      injection hp with h1 h2
      subst h1
      subst h2
      refine ⟨Nat.le_refl _, hm, ?_⟩
      intro j hj1 hj2
      exact absurd (Nat.lt_of_lt_of_le hj1 hj2) (Nat.lt_irrefl _)
    | none =>
      simp only [bestAux, hm] at h
      obtain ⟨h1, h2, h3⟩ := ih i L h
      refine ⟨Nat.le_succ_of_le h1, h2, ?_⟩
      intro j hj1 hj2
      rcases Nat.lt_or_ge j (c + 1) with hlt | hge
      · exact h3 j hj1 (Nat.lt_succ_iff.mp hlt)
      · rw [le_antisymm hj2 hge]
        exact hm

theorem bestAux_none (s : List Char) :
    ∀ b, bestAux s b = none → ∀ j, j ≤ b → opMatchLen (s.drop j) = none := by
  intro b
  induction b with
  | zero =>
    intro h j hj
    simp only [bestAux, List.drop_zero] at h
    cases hm : opMatchLen s with
    | some L =>
      rw [hm] at h
      exact absurd h (by simp)
    | none =>
      rw [Nat.le_zero.mp hj, List.drop_zero]
      exact hm
  | succ c ih =>
    intro h j hj
    cases hm : opMatchLen (s.drop (c + 1)) with
    | some L => simp [bestAux, hm] at h
    | none =>
      simp only [bestAux, hm] at h
      rcases Nat.lt_or_ge j (c + 1) with hlt | hge
      · exact ih h j (Nat.lt_succ_iff.mp hlt)
      · rw [le_antisymm hj hge]
        exact hm

/-- C4 (amended): a line with at least one comparison operator sequence
is split at the occurrence chosen by the greedy regex of the method
RequirementCheck._read — the occurrence giving the longest possible
name, that is the last one: the name is the text before it, the version
text the text after it, the separator is a sequence of operator
characters of length at least two ending in an equals-sign, and no
operator sequence matches at any later position. -/
theorem read_splits_at_last_operator :
    (∀ (l : List Char) (i L : Nat), bestOpSplit l = some (i, L) →
      splitRequirement l = List.filter (fun t => !t.isEmpty) [l.take i, l.drop (i + L)]
      ∧ l = l.take i ++ (((l.drop i).take L) ++ l.drop (i + L))
      ∧ 2 ≤ L
      ∧ (((l.drop i).take L).all isOpChar) = true
      ∧ ((l.drop i).take L).getLast? = some '='
      ∧ ∀ j, i < j → opMatchLen (l.drop j) = none)
    ∧ (∀ (l : List Char) (j : Nat), opMatchLen (l.drop j) ≠ none → bestOpSplit l ≠ none) := by
  constructor
  · intro l i L h
    obtain ⟨hib, hm, hmax⟩ := bestAux_some l l.length i L h
    obtain ⟨hL2, hLlen, hall, hlast⟩ := opMatchLen_sound (l.drop i) L hm
    refine ⟨by simp [splitRequirement, h], ?_, hL2, hall, hlast, ?_⟩
    · have hsplit : l.take i ++ (((l.drop i).take L) ++ l.drop (i + L)) = l := by
        calc l.take i ++ (((l.drop i).take L) ++ l.drop (i + L))
            = l.take i ++ (((l.drop i).take L) ++ (l.drop i).drop L) := by
              rw [List.drop_drop, Nat.add_comm]
          _ = l.take i ++ l.drop i := by rw [List.take_append_drop]
          _ = l := List.take_append_drop i l
      exact hsplit.symm
    · intro j hj
      rcases le_or_lt j l.length with hle | hgt
      · exact hmax j hj hle
      · rw [List.drop_eq_nil_of_le (le_of_lt hgt)]
        rfl
  · intro l j hne hbest
    rcases le_or_lt j l.length with hle | hgt
    · exact hne (bestAux_none l l.length hbest j hle)
    · refine hne ?_
      rw [List.drop_eq_nil_of_le (le_of_lt hgt)]
      rfl

/-- C4 witness: the single-operator line six==1.17.0 is split at
position three with operator length two. -/
theorem read_splits_at_last_operator_witness :
    splitRequirement ("six==1.17.0").data
      = List.filter (fun t => !t.isEmpty)
          [(("six==1.17.0").data).take 3, (("six==1.17.0").data).drop 5] :=
  (read_splits_at_last_operator.1 (("six==1.17.0").data) 3 2 (by decide)).1

/-- C4 counterexample: the line with two operator occurrences is split
at the last occurrence, not at the first as the claim states. -/
theorem read_split_first_claim_cex :
    splitRequirement ("a==b==c").data = [("a==b").data, ("c").data]
    ∧ splitRequirement ("a==b==c").data ≠ [("a").data, ("b==c").data] := by
  exact ⟨by decide, by decide⟩

end Preqs.RequirementCheck

namespace Preqs.Requirements

/-- C7: when the output file exists and neither the replace flag nor
the print flag is set, the run reports the pre-existing-file exit code
(value 10), the scanning stages are never entered, and nothing is
written. -/
theorem run_aborts_when_file_exists :
    ∀ env : RunEnv, env.ofileExists = true → env.replaceFlag = false → env.printFlag = false →
      run env = ⟨ExCode.ERR_EXIST, false, false⟩ ∧ (run env).excode.value = 10 := by
  intro env h1 h2 h3
  have hff : _file_not_exists env.ofileExists env.replaceFlag env.printFlag = false := by
    rw [h1, h2, h3]
    rfl
  have hrun : run env = ⟨ExCode.ERR_EXIST, false, false⟩ := by
    unfold run
    simp [hff]
  refine ⟨hrun, ?_⟩
  rw [hrun]
  rfl

/-- C7 witness: a concrete environment with the output file present and
both flags unset. -/
theorem run_aborts_when_file_exists_witness :
    run sampleEnv = ⟨ExCode.ERR_EXIST, false, false⟩ :=
  (run_aborts_when_file_exists sampleEnv rfl rfl rfl).1

/-- C8: in write mode the write stage succeeds exactly when the digest
of the written content equals the digest of the file text read back,
and on a mismatch the stage reports the write-verification exit code
(value 60). -/
theorem write_verifies_checksum :
    ∀ (reqs : List (String × String)) (genby : String) (hash : String → String) (readBack : String),
      ((_write false reqs genby hash readBack).2.1 = true
        ↔ hash (_write_content reqs genby) = hash readBack)
      ∧ (hash (_write_content reqs genby) ≠ hash readBack →
          (_write false reqs genby hash readBack).1 = ExCode.ERR_WRITE
          ∧ ExCode.value ExCode.ERR_WRITE = 60) := by
  intro reqs genby hash readBack
  have hcmpIff : (_compare hash (_write_content reqs genby) readBack = true)
      ↔ hash (_write_content reqs genby) = hash readBack := by
    unfold _compare
    exact beq_iff_eq
  cases hcmp : _compare hash (_write_content reqs genby) readBack with
  | true =>
    have hw : _write false reqs genby hash readBack = (ExCode.GEN_OK, true, true) := by
      simp [_write, hcmp]
    refine ⟨?_, ?_⟩
    · rw [hw]
      exact ⟨fun _ => hcmpIff.mp hcmp, fun _ => rfl⟩
    · intro he
      exact absurd (hcmpIff.mp hcmp) he
  | false =>
    have hw : _write false reqs genby hash readBack = (ExCode.ERR_WRITE, false, true) := by
      simp [_write, hcmp]
    refine ⟨?_, fun _ => ⟨by rw [hw], rfl⟩⟩
    rw [hw]
    constructor
    · intro hs
      exact absurd hs (by simp)
    · intro he
      exact absurd (hcmpIff.mpr he) (by rw [hcmp]; simp)

/-- C8 witness: with the identity digest and a corrupted read-back, the
write stage reports the write-verification exit code. -/
theorem write_verifies_checksum_witness :
    (_write false [] ("G") (fun s => s) ("corrupt")).1 = ExCode.ERR_WRITE
    ∧ ExCode.value ExCode.ERR_WRITE = 60 :=
  (write_verifies_checksum [] ("G") (fun s => s) ("corrupt")).2 (by decide)

theorem orderedInsert_eq_cons (a : String × String) :
    ∀ m : List (String × String), (∀ x ∈ m, reqLe a x) →
      List.orderedInsert reqLe a m = a :: m := by
  intro m hm
  cases m with
  | nil => rfl
  | cons b t =>
    simp only [List.orderedInsert]
    rw [if_pos (hm b (List.mem_cons_self b t))]

theorem filter_orderedInsert (p : String × String → Bool) (a : String × String) :
    ∀ m : List (String × String), List.Pairwise reqLe m →
      (List.orderedInsert reqLe a m).filter p
        = if p a then List.orderedInsert reqLe a (m.filter p) else m.filter p := by
  intro m
  induction m with
  | nil =>
    intro _
    cases hp : p a with
    | true => simp [List.orderedInsert, List.filter, hp]
    | false => simp [List.orderedInsert, List.filter, hp]
  | cons b t ih =>
    intro hsorted
    have hb : ∀ x ∈ t, reqLe b x := (List.pairwise_cons.mp hsorted).1
    have ht : List.Pairwise reqLe t := (List.pairwise_cons.mp hsorted).2
    by_cases hab : reqLe a b
    · cases hp : p a with
      | true =>
        cases hpb : p b with
        | true =>
          simp [List.orderedInsert, hab, List.filter_cons, hp, hpb]
        | false =>
          have hax : ∀ x ∈ t.filter p, reqLe a x := by
            intro x hx
            exact IsTrans.trans a b x hab (hb x (List.mem_of_mem_filter hx))
          simp [List.orderedInsert, hab, List.filter_cons, hp, hpb,
            orderedInsert_eq_cons a (t.filter p) hax]
      | false =>
        simp [List.orderedInsert, hab, List.filter_cons, hp]
    · cases hp : p a with
      | true =>
        cases hpb : p b with
        | true =>
          simp [List.orderedInsert, hab, List.filter_cons, hp, hpb, ih ht]
        | false =>
          simp [List.orderedInsert, hab, List.filter_cons, hp, hpb, ih ht]
      | false =>
        cases hpb : p b with
        | true =>
          simp [List.orderedInsert, hab, List.filter_cons, hp, hpb, ih ht]
        | false =>
          simp [List.orderedInsert, hab, List.filter_cons, hp, hpb, ih ht]

theorem sortPairs_filter_comm (p : String × String → Bool) :
    ∀ l : List (String × String), (sortPairs l).filter p = sortPairs (l.filter p) := by
  intro l
  induction l with
  | nil => rfl
  | cons a t ih =>
    have hsorted : List.Pairwise reqLe (sortPairs t) := List.sorted_insertionSort reqLe t
    show (List.orderedInsert reqLe a (sortPairs t)).filter p = sortPairs ((a :: t).filter p)
    rw [filter_orderedInsert p a _ hsorted, ih]
    cases hp : p a with
    | true => simp [List.filter_cons, hp, sortPairs, List.insertionSort]
    | false => simp [List.filter_cons, hp]

/-- C6 (amended): the written manifest content equals the content
described by the spec with the exclusion rule amended to substring
containment of the sentinel marker — the pairs whose version contains
the marker Unknown are dropped, the remaining pairs are sorted by
package name, rendered as requirement lines and followed by a blank
line and the generator comment line; the listing is sorted by package
name, and the content apart from the trailing generator line is the
same for every generator comment, hence stable across runs. -/
theorem write_content_spec_eq :
    ∀ (reqs : List (String × String)) (genby : String),
      _write_content reqs genby = _write_content_spec reqs genby
      ∧ List.Pairwise (fun a b => strLt a.1 b.1 = true ∨ a.1 = b.1)
          ((sortPairs reqs).filter (fun pv => !(hasUnknown pv.2)))
      ∧ ∃ body, ∀ g2 : String, _write_content reqs g2 = body ++ "\n\n" ++ g2 ++ "\n" := by
  intro reqs genby
  refine ⟨?_, ?_, ?_⟩
  · unfold _write_content _write_content_spec
    rw [sortPairs_filter_comm]
  · have hs : List.Pairwise reqLe (sortPairs reqs) := List.sorted_insertionSort reqLe reqs
    have hf : List.Pairwise reqLe ((sortPairs reqs).filter (fun pv => !(hasUnknown pv.2))) :=
      List.Pairwise.sublist (List.filter_sublist _) hs
    refine hf.imp ?_
    intro a b hab
    rcases hab with h | ⟨h, _⟩
    · exact Or.inl h
    · exact Or.inr h
  · refine ⟨joinNL (((sortPairs reqs).filter (fun pv => !(hasUnknown pv.2))).map renderReq), ?_⟩
    intro g2
    rfl

/-- C6 counterexample: a pair whose version contains the sentinel
marker Unknown without being equal to the sentinel string is excluded
from the written content, refuting the claimed equality-based
exclusion rule. -/
theorem write_content_unknown_claim_cex :
    _write_content [(("pkga" : String), ("Unknown-1.0" : String))] ("G") = "\n\nG\n"
    ∧ ("Unknown-1.0" : String) ≠ ("Unknown or not installed" : String)
    ∧ _write_content [(("pkga" : String), ("Unknown-1.0" : String))] ("G")
        ≠ ("pkga==Unknown-1.0\n\nG\n" : String) := by
  exact ⟨by decide, by decide, by decide⟩

end Preqs.Requirements
